import Mathlib

/-!
Verification of the vp-mteval upload reliability layer and of the
server resource helpers in `src/server/resources/runs.tsx`.

The `mteval_upload` Python library itself is not present in this tree
(only its README is); its components (RunStore, Fingerprinter,
UploadTransport outcomes, RetryPolicy, UploadOrchestrator, BatchRunner)
are modelled from the spec, as marked on each definition.  The
`fetchRun` / `loginPost` / `login` definitions are translated directly
from `src/server/resources/runs.tsx`.
-/

/-! ## Data model -/

/-- Modelled from the spec: one translation segment `{src, tgt, ref?}`. -/
structure Segment where
  src : String
  tgt : String
  ref : Option String
deriving DecidableEq, Repr

/-- Modelled from the spec: a Run, the unit of delivery. -/
structure Run where
  namespace_name : String
  dataset_name : String
  dataset_source_lang : String
  dataset_target_lang : String
  segments : List Segment
deriving DecidableEq, Repr

/-! ## Server resource helpers (translated from src/server/resources/runs.tsx) -/

/-- Result of one HTTP request made through the axios-style `api` client:
either the response data, or a rejection carrying the response status. -/
inductive ApiResult (α : Type) where
  | ok (data : α)
  | error (status : Nat)
deriving DecidableEq, Repr

/-- Errors observable from the `fetchRun` helpers. -/
inductive FetchError where
  | runNotFound (msg : String)
  | other (status : Nat)
deriving DecidableEq, Repr

/-- Translated from `src/server/resources/runs.tsx` lines 5-16.  The catch
handler reads `if (err.status = 404)`: in JavaScript this is an
assignment expression whose value is `404`, which is truthy, so the
`RunNotFoundError` branch is taken for every rejection, whatever the
original status was. -/
def fetchRun (runId : String) (resp : ApiResult String) : Except FetchError String :=
  match resp with
  | .ok d => .ok d
  | .error _ =>
      -- `err.status = 404` assigns 404 to err.status and evaluates to 404
      let condValue : Nat := 404
      if condValue ≠ 0 then
        .error (.runNotFound ("Run with id \"" ++ runId ++ "\" not found"))
      else
        .error (.other 404)

/-- Translated from `src/server/resources/runs.tsx` lines 27-38 (the
namespace-scoped variant).  Here the catch handler uses a proper
comparison `err.status === 404`, so only a 404 is converted to
`RunNotFoundError`; every other rejection is rethrown unchanged. -/
def fetchRunInNamespace (runId namespaceId : String) (resp : ApiResult String) :
    Except FetchError String :=
  match resp with
  | .ok d => .ok d
  | .error s =>
      if s = 404 then
        .error (.runNotFound
          ("Run with id \"" ++ runId ++ "\" not found in namespace \"" ++ namespaceId ++ "\""))
      else
        .error (.other s)

/-- Result of the POST to `api/login`: the response data (carrying
`api_key`) or a rejection with a status. -/
inductive LoginResp where
  | ok (api_key : String)
  | error (status : Nat)
deriving DecidableEq, Repr

/-- Errors observable from `loginPost` / `login`. -/
inductive JsError where
  | invalidCredentials
  | typeErrorUndefined
deriving DecidableEq, Repr

/-- Translated from `src/server/resources/runs.tsx` lines 131-140.
The catch handler throws only when `err.status === 401`; for any other
failure it returns nothing, so the awaited chain resolves with
`undefined` (modelled as `none`). -/
def loginPost (resp : LoginResp) : Except JsError (Option String) :=
  match resp with
  | .ok key => .ok (some key)
  | .error s =>
      if s = 401 then .error .invalidCredentials
      else .ok none

/-- Translated from `src/server/resources/runs.tsx` lines 154-161.
`login` awaits `loginPost` and then reads `res.api_key`; when `res` is
`undefined` the property read throws a TypeError (modelled as
`.typeErrorUndefined`). -/
def login (resp : LoginResp) : Except JsError String :=
  match loginPost resp with
  | .error e => .error e
  | .ok (some key) => .ok key
  | .ok none => .error .typeErrorUndefined

/-! ## Fingerprinter (modelled from the spec)

A run arrives as serialized JSON whose object fields may appear in any
order.  The fingerprinter canonicalizes field ordering before hashing,
so two serializations of the same semantic content hash identically. -/

/-- Modelled from the spec: the serialized form of one segment object,
an association list of string fields (`src`, `tgt`, optionally `ref`)
in arbitrary serialization order. -/
abbrev RawSeg := List (String × String)

/-- Modelled from the spec: the value of one top-level field of a
serialized run: either a string field or the `segments` array. -/
inductive RawField where
  | str (s : String)
  | segs (l : List RawSeg)
deriving DecidableEq, Repr

/-- Modelled from the spec: the serialized form of a run, an association
list of top-level fields in arbitrary serialization order. -/
abbrev RawRun := List (String × RawField)

/-- The segment schema keys in canonical (lexicographically sorted)
order. -/
def segKeyOrder : List String := ["ref", "src", "tgt"]

/-- The run schema keys in canonical (lexicographically sorted) order. -/
def runKeyOrder : List String :=
  ["dataset_name", "dataset_source_lang", "dataset_target_lang", "namespace_name", "segments"]

/-- Canonicalize a serialized segment: the schema fields it carries, in
canonical key order, each taken by key lookup — so any serialization
order of the fields yields the same canonical form. -/
def canonSeg (s : RawSeg) : RawSeg :=
  (segKeyOrder.filter (fun k => (s.lookup k).isSome)).map
    (fun k => (k, (s.lookup k).getD ""))

/-- Canonicalize one field value (segments are canonicalized pointwise;
the order of the segment sequence itself is semantic and preserved). -/
def canonField : RawField → RawField
  | .str s => .str s
  | .segs l => .segs (l.map canonSeg)

/-- Canonicalize a serialized run: the schema fields it carries, in
canonical key order, each value canonicalized. -/
def canonRun (r : RawRun) : RawRun :=
  (runKeyOrder.filter (fun k => (r.lookup k).isSome)).map
    (fun k => (k, canonField ((r.lookup k).getD (.str ""))))

/-- Serialize a canonicalized segment, no incidental whitespace. -/
def serializeSeg (s : RawSeg) : String :=
  String.join (s.map (fun p => "\"" ++ p.1 ++ "\":\"" ++ p.2 ++ "\";"))

/-- Serialize one canonicalized field value. -/
def serializeField : RawField → String
  | .str s => "\"" ++ s ++ "\""
  | .segs l => "[" ++ String.join (l.map serializeSeg) ++ "]"

/-- Serialize a canonicalized run, no incidental whitespace. -/
def serializeRun (r : RawRun) : String :=
  String.join (r.map (fun p => "\"" ++ p.1 ++ "\":" ++ serializeField p.2 ++ ";"))

/-- Modelled from the spec: a deterministic digest of a string (a pure
rolling hash standing in for the content digest). -/
def digestString (s : String) : Nat :=
  s.data.foldl (fun h c => (h * 31 + c.toNat) % 2 ^ 64) 5381

/-- Modelled from the spec: `fingerprint(run)` — canonicalize field
ordering, serialize canonically, then hash.  Pure and deterministic. -/
def fingerprint (r : RawRun) : Nat :=
  digestString (serializeRun (canonRun r))

/-- Parse a serialized segment into its semantic content. -/
def parseSeg (s : RawSeg) : Option Segment :=
  match s.lookup "src", s.lookup "tgt" with
  | some src, some tgt => some ⟨src, tgt, s.lookup "ref"⟩
  | _, _ => none

/-- Read a top-level field expected to be a string. -/
def getStr : Option RawField → Option String
  | some (.str s) => some s
  | _ => none

/-- Parse a list of serialized segments, all-or-nothing. -/
def parseSegs : List RawSeg → Option (List Segment)
  | [] => some []
  | s :: rest =>
      match parseSeg s, parseSegs rest with
      | some a, some b => some (a :: b)
      | _, _ => none

/-- Parse a serialized run into its semantic content (the `Run`). -/
def parseRun (r : RawRun) : Option Run :=
  match getStr (r.lookup "namespace_name"), getStr (r.lookup "dataset_name"),
        getStr (r.lookup "dataset_source_lang"), getStr (r.lookup "dataset_target_lang"),
        r.lookup "segments" with
  | some ns, some ds, some sl, some tl, some (.segs raws) =>
      (parseSegs raws).map (fun segs => ⟨ns, ds, sl, tl, segs⟩)
  | _, _, _, _, _ => none

/-- The canonical serialized form of a semantic segment. -/
def canonSegOf (seg : Segment) : RawSeg :=
  match seg.ref with
  | some rv => [("ref", rv), ("src", seg.src), ("tgt", seg.tgt)]
  | none => [("src", seg.src), ("tgt", seg.tgt)]

/-- The canonical serialized form of a semantic run. -/
def canonRunOf (run : Run) : RawRun :=
  [("dataset_name", .str run.dataset_name),
   ("dataset_source_lang", .str run.dataset_source_lang),
   ("dataset_target_lang", .str run.dataset_target_lang),
   ("namespace_name", .str run.namespace_name),
   ("segments", .segs (run.segments.map canonSegOf))]

/-! ## RunStore (modelled from the spec) -/

/-- Modelled from the spec: the two durable partitions of local storage. -/
inductive PartitionId where
  | pending_failure
  | success
deriving DecidableEq, Repr

/-- Modelled from the spec: a Run plus delivery bookkeeping, keyed by
fingerprint.  `no_auto_retry` is the mark set on permanent rejection so
that blind batch replay skips the entry without operator intervention. -/
structure StoredRun where
  run : Run
  fingerprint : Nat
  attempt_count : Nat
  last_error : Option String
  no_auto_retry : Bool
deriving DecidableEq, Repr

/-- Modelled from the spec: local durable storage, two partitions. -/
structure Store where
  pending_failure : List StoredRun
  success : List StoredRun
deriving DecidableEq, Repr

def emptyStore : Store := ⟨[], []⟩

def Store.part (st : Store) : PartitionId → List StoredRun
  | .pending_failure => st.pending_failure
  | .success => st.success

def Store.setPart (st : Store) : PartitionId → List StoredRun → Store
  | .pending_failure, l => { st with pending_failure := l }
  | .success, l => { st with success := l }

/-- Entries of a partition whose fingerprint is `fp`. -/
def entriesFP (l : List StoredRun) (fp : Nat) : List StoredRun :=
  l.filter (fun e => e.fingerprint = fp)

/-- First entry with fingerprint `fp`, if any. -/
def lookupFP (l : List StoredRun) (fp : Nat) : Option StoredRun :=
  l.find? (fun e => e.fingerprint = fp)

/-- A partition has at most one entry per fingerprint when the list of
fingerprints is duplicate-free. -/
def NodupFP (l : List StoredRun) : Prop :=
  (l.map StoredRun.fingerprint).Nodup

/-- Modelled from the spec: write an entry into a partition keyed by
fingerprint, overwriting any existing entry with the same fingerprint
rather than creating a duplicate. -/
def savePart (l : List StoredRun) (sr : StoredRun) : List StoredRun :=
  if l.any (fun e => e.fingerprint = sr.fingerprint) then
    l.map (fun e => if e.fingerprint = sr.fingerprint then sr else e)
  else
    l ++ [sr]

/-- Modelled from the spec: `RunStore.save(run, state)`. -/
def RunStore.save (st : Store) (sr : StoredRun) (p : PartitionId) : Store :=
  st.setPart p (savePart (st.part p) sr)

/-- Modelled from the spec: `RunStore.delete(fingerprint, state)`;
a no-op when the entry is absent. -/
def RunStore.delete (st : Store) (fp : Nat) (p : PartitionId) : Store :=
  st.setPart p ((st.part p).filter (fun e => e.fingerprint ≠ fp))

/-- Modelled from the spec: `RunStore.move(fingerprint, from, to)`;
relocates an entry between partitions, a no-op when absent. -/
def RunStore.move (st : Store) (fp : Nat) (src dst : PartitionId) : Store :=
  match lookupFP (st.part src) fp with
  | none => st
  | some e => RunStore.save (RunStore.delete st fp src) e dst

/-- The storage operations a client can perform; reachable states are
those produced from the empty store by a sequence of them. -/
inductive StoreOp where
  | save (sr : StoredRun) (p : PartitionId)
  | del (fp : Nat) (p : PartitionId)
  | move (fp : Nat) (src dst : PartitionId)

def applyOp (st : Store) : StoreOp → Store
  | .save sr p => RunStore.save st sr p
  | .del fp p => RunStore.delete st fp p
  | .move fp src dst => RunStore.move st fp src dst

def runOps (ops : List StoreOp) : Store :=
  ops.foldl applyOp emptyStore

def Reachable (st : Store) : Prop :=
  ∃ ops, runOps ops = st

/-! ## UploadTransport outcomes and RetryPolicy (modelled from the spec) -/

/-- Modelled from the spec: classification of one delivery attempt. -/
inductive Outcome where
  | Delivered
  | RejectedPermanent (reason : String)
  | RejectedTransient (reason : String)
deriving DecidableEq, Repr

/-- Modelled from the spec: retry policy configuration. -/
structure RetryConfig where
  base : Nat
  max_delay : Nat
  max_attempts : Nat
deriving DecidableEq, Repr

/-- Modelled from the spec: the deterministic backoff component,
`min(base * 2^(attempt_number-1), max_delay)`. -/
def backoff (cfg : RetryConfig) (n : Nat) : Nat :=
  min (cfg.base * 2 ^ (n - 1)) cfg.max_delay

/-- Modelled from the spec: `next_delay(attempt_number)` — exponential
backoff plus randomized jitter (the jitter draw is threaded in as a
function of the attempt number; a draw in `[0, delay]` satisfies
`jitter n ≤ backoff cfg n`). -/
def next_delay (cfg : RetryConfig) (jitter : Nat → Nat) (n : Nat) : Nat :=
  backoff cfg n + jitter n

/-- Modelled from the spec: `should_retry(attempt_number, outcome)` —
false immediately on permanent rejection, false once the attempt number
reaches the configured maximum, true only for a transient rejection
with budget left. -/
def should_retry (cfg : RetryConfig) (n : Nat) : Outcome → Bool
  | .Delivered => false
  | .RejectedPermanent _ => false
  | .RejectedTransient _ => n < cfg.max_attempts

/-! ## UploadOrchestrator (modelled from the spec) -/

/-- Modelled from the spec: terminal result of one orchestrated call. -/
inductive UploadResult where
  | delivered
  | rejectedPermanent (reason : String)
  | exhaustedRetries (reason : String)
deriving DecidableEq, Repr

/-- Modelled from the spec: caller parameters of `upload_run`. -/
structure UploadParams where
  keep : Bool
  save : Bool
deriving DecidableEq, Repr

/-- Modelled from the spec: the attempt loop of the orchestrator.
`transport` gives the outcome of the n-th `UploadTransport.attempt`
(one network round trip per invocation); the loop starts at attempt
number `n` with `fuel` attempts of budget remaining.  Returns the
terminal result, the list of outcomes observed (one per attempt made,
in order), and the list of delays slept between attempts. -/
def uploadLoop (cfg : RetryConfig) (jitter : Nat → Nat) (transport : Nat → Outcome) :
    Nat → Nat → UploadResult × List Outcome × List Nat
  | 0, _ => (.exhaustedRetries "retry budget exhausted", [], [])
  | fuel + 1, n =>
      match transport n with
      | .Delivered => (.delivered, [.Delivered], [])
      | .RejectedPermanent r => (.rejectedPermanent r, [.RejectedPermanent r], [])
      | .RejectedTransient r =>
          if should_retry cfg n (.RejectedTransient r) then
            let rest := uploadLoop cfg jitter transport fuel (n + 1)
            (rest.1, .RejectedTransient r :: rest.2.1, next_delay cfg jitter n :: rest.2.2)
          else
            (.exhaustedRetries r, [.RejectedTransient r], [])

/-- A fresh StoredRun with no bookkeeping yet. -/
def mkStored (run : Run) (fp : Nat) : StoredRun :=
  ⟨run, fp, 0, none, false⟩

/-- Modelled from the spec: decide the run's resting place from the
terminal outcome (§4.5).  `st1` is the store after the optional initial
durable save; `attempts` is the number of attempts made.  Delivered with
`keep=false` deletes any entry for the fingerprint from both partitions;
delivered with `keep=true` and `save` moves the entry into `success`;
permanent rejection records the run in `pending_failure` with
`last_error` and the no-auto-retry mark; exhausted retries records it in
`pending_failure` with updated `attempt_count` and `last_error`. -/
def settleOutcome (run : Run) (fp : Nat) (ps : UploadParams) (st1 : Store) :
    UploadResult → Nat → Store
  | .delivered, attempts =>
      if ps.keep then
        if ps.save then
          RunStore.save (RunStore.delete st1 fp .pending_failure)
            { mkStored run fp with attempt_count := attempts } .success
        else st1
      else
        RunStore.delete (RunStore.delete st1 fp .pending_failure) fp .success
  | .rejectedPermanent reason, attempts =>
      RunStore.save st1 ⟨run, fp, attempts, some reason, true⟩ .pending_failure
  | .exhaustedRetries reason, attempts =>
      RunStore.save st1 ⟨run, fp, attempts, some reason, false⟩ .pending_failure

/-- Modelled from the spec: `UploadOrchestrator.upload` for one run.
If `save` was requested the run is first recorded durably; the attempt
loop then runs under the retry policy; the terminal outcome decides the
run's resting place.  Returns the final store, the result, the outcomes
observed and the delays slept. -/
def upload (cfg : RetryConfig) (jitter : Nat → Nat) (transport : Nat → Outcome)
    (ps : UploadParams) (run : Run) (fp : Nat) (st : Store) :
    Store × UploadResult × List Outcome × List Nat :=
  let st1 := if ps.save then RunStore.save st (mkStored run fp) .pending_failure else st
  let r := uploadLoop cfg jitter transport cfg.max_attempts 1
  (settleOutcome run fp ps st1 r.1 r.2.1.length, r.1, r.2.1, r.2.2)

/-! ## BatchRunner (modelled from the spec) -/

/-- Modelled from the spec: aggregate summary of one batch replay. -/
structure BatchSummary where
  delivered : Nat
  rejected_permanent : Nat
  still_failed : Nat
deriving DecidableEq, Repr

def resultTag (r : UploadResult) : BatchSummary :=
  match r with
  | .delivered => ⟨1, 0, 0⟩
  | .rejectedPermanent _ => ⟨0, 1, 0⟩
  | .exhaustedRetries _ => ⟨0, 0, 1⟩

def addSummary (a b : BatchSummary) : BatchSummary :=
  ⟨a.delivered + b.delivered, a.rejected_permanent + b.rejected_permanent,
   a.still_failed + b.still_failed⟩

def summarize (rs : List UploadResult) : BatchSummary :=
  rs.foldr (fun r acc => addSummary (resultTag r) acc) ⟨0, 0, 0⟩

/-- The entries a blind replay may retry: entries marked no-auto-retry
are skipped unless the operator explicitly includes them. -/
def eligibleEntries (l : List StoredRun) (includeMarked : Bool) : List StoredRun :=
  if includeMarked then l else l.filter (fun e => e.no_auto_retry = false)

/-- One per-run record of a batch replay: the fingerprint processed,
its terminal result, and how many transport attempts it received. -/
structure ReplayRecord where
  fingerprint : Nat
  result : UploadResult
  attempts : Nat
deriving DecidableEq, Repr

/-- Modelled from the spec: the body of `BatchRunner.replay` — feed each
selected stored run through the orchestrator, threading the store, and
collect a per-run record; an individual run's failure never halts the
iteration. `transports i` is the transport behaviour seen by the i-th
selected run. -/
def replayGo (cfg : RetryConfig) (jitter : Nat → Nat) (transports : Nat → Nat → Outcome)
    (ps : UploadParams) : List StoredRun → Nat → Store → Store × List ReplayRecord
  | [], _, st => (st, [])
  | e :: rest, i, st =>
      let r := upload cfg jitter (transports i) ps e.run e.fingerprint st
      let tail := replayGo cfg jitter transports ps rest (i + 1) r.1
      (tail.1, ⟨e.fingerprint, r.2.1, r.2.2.1.length⟩ :: tail.2)

/-- Modelled from the spec: `BatchRunner.replay(selection)` — iterate a
partition of the store and resubmit each eligible entry, returning the
final store, the per-run records and the aggregate summary. -/
def replay (cfg : RetryConfig) (jitter : Nat → Nat) (transports : Nat → Nat → Outcome)
    (ps : UploadParams) (p : PartitionId) (includeMarked : Bool) (st : Store) :
    Store × List ReplayRecord × BatchSummary :=
  let sel := eligibleEntries (st.part p) includeMarked
  let r := replayGo cfg jitter transports ps sel 0 st
  (r.1, r.2, summarize (r.2.map ReplayRecord.result))

/-! ## Crash-atomicity model of RunStore.save (modelled from the spec) -/

/-- File names in a partition directory: the durable entry for a
fingerprint, or the temporary file the save discipline writes first.
Readers ignore temporary files. -/
inductive FName where
  | final (fp : Nat)
  | temp (fp : Nat)
deriving DecidableEq, Repr

/-- A partition directory: file name to file content. -/
abbrev Fs := List (FName × String)

/-- Modelled from the spec: the filesystem operations the save
discipline uses.  `rename` is atomic (the filesystem guarantee the
discipline relies on); `write` is not. -/
inductive FsOp where
  | write (n : FName) (content : String)
  | rename (src dst : FName)

/-- Read a file's content from the directory, first entry wins. -/
def getFile : Fs → FName → Option String
  | [], _ => none
  | f :: rest, n => if f.1 = n then some f.2 else getFile rest n

def setFile (fs : Fs) (n : FName) (c : String) : Fs :=
  (fs.filter (fun f => f.1 ≠ n)) ++ [(n, c)]

def removeFile (fs : Fs) (n : FName) : Fs :=
  fs.filter (fun f => f.1 ≠ n)

def applyFs (fs : Fs) : FsOp → Fs
  | .write n c => setFile fs n c
  | .rename src dst =>
      match getFile fs src with
      | none => fs
      | some c => setFile (removeFile fs src) dst c

def applyFsOps (fs : Fs) (ops : List FsOp) : Fs :=
  ops.foldl applyFs fs

/-- Modelled from the spec: the write-to-temp-then-rename discipline of
`RunStore.save` at the filesystem level. -/
def saveFsOps (fp : Nat) (content : String) : List FsOp :=
  [.write (.temp fp) content, .rename (.temp fp) (.final fp)]

/-- The torn intermediate states of one operation: a `write` interrupted
mid-way leaves an arbitrary prefix of the content in the target file; a
`rename` is atomic and has no intermediate state. -/
def tornStates (fs : Fs) : FsOp → List Fs
  | .write n c => (List.range (c.length + 1)).map (fun j => applyFs fs (.write n (c.take j)))
  | .rename _ _ => []

/-- Every state the directory can be observed in when the process is
killed at any point: before any operation, mid-write, between
operations, or after all of them. -/
def crashStates (fs : Fs) : List FsOp → List Fs
  | [] => [fs]
  | op :: rest => fs :: tornStates fs op ++ crashStates (applyFs fs op) rest

/-- What a subsequent process start observes: temporary files are
ignored. -/
def visible (fs : Fs) : Fs :=
  fs.filter (fun f => match f.1 with | .final _ => true | .temp _ => false)

/-- Number of (visible) entries under a given name. -/
def countName (fs : Fs) (n : FName) : Nat :=
  (fs.filter (fun f => f.1 = n)).length

/-! ## Concrete instances used by witnesses and counterexamples -/

/-- The run of the spec's example scenario. -/
def sampleRun : Run :=
  ⟨"default", "example_dataset", "en", "fr", [⟨"Hello", "Bonjour", none⟩]⟩

/-- A retry configuration with `base = 1`, `max_delay = 1`,
`max_attempts = 3`, under which the cap binds from the first attempt. -/
def cexCfg : RetryConfig := ⟨1, 1, 3⟩

/-- A jitter draw that is maximal on the first attempt and zero after:
each draw lies in `[0, backoff]`. -/
def cexJitter : Nat → Nat := fun n => if n = 1 then 1 else 0

/-- A benign retry configuration used by witnesses. -/
def witCfg : RetryConfig := ⟨1, 4, 3⟩

/-- The always-transient transport (e.g. the service keeps timing out). -/
def alwaysTransient : Nat → Outcome := fun _ => .RejectedTransient "503"

/-- The always-permanent transport (e.g. the payload is malformed). -/
def alwaysPermanent : Nat → Outcome := fun _ => .RejectedPermanent "400"

/-- A transport that delivers on the first attempt. -/
def immediateDelivery : Nat → Outcome := fun _ => .Delivered

/-- Three stored failed runs for the spec's batch-isolation scenario. -/
def threeStored : List StoredRun :=
  [⟨sampleRun, 1, 1, some "503", false⟩,
   ⟨⟨"default", "d2", "en", "de", []⟩, 2, 1, some "503", false⟩,
   ⟨⟨"default", "d3", "en", "cs", []⟩, 3, 1, some "503", false⟩]

/-- A store holding the three failed runs. -/
def threeStore : Store := ⟨threeStored, []⟩

/-- Per-run transports for the batch scenario: the second run is
deterministically rejected permanently, the others deliver. -/
def batchTransports : Nat → Nat → Outcome :=
  fun i _ => if i = 1 then .RejectedPermanent "409" else .Delivered

/-- The spec's example run serialized with fields in one order. -/
def rawPermA : RawRun :=
  [("namespace_name", .str "default"), ("dataset_name", .str "example_dataset"),
   ("dataset_source_lang", .str "en"), ("dataset_target_lang", .str "fr"),
   ("segments", .segs [[("src", "Hello"), ("tgt", "Bonjour")]])]

/-- The same run serialized with fields in a different order. -/
def rawPermB : RawRun :=
  [("segments", .segs [[("tgt", "Bonjour"), ("src", "Hello")]]),
   ("dataset_target_lang", .str "fr"), ("dataset_source_lang", .str "en"),
   ("dataset_name", .str "example_dataset"), ("namespace_name", .str "default")]

/-! # Theorems -/

/-! ## C9 -/

/-- C9: the claim says `fetchRun` throws `RunNotFoundError` exactly when
the status is 404 and propagates every other error unchanged.  The code
at `src/server/resources/runs.tsx` lines 5-16 instead uses the
assignment `err.status = 404` as the condition, which is always truthy,
so a 500 rejection is also converted to `RunNotFoundError`.  The
namespace-scoped variant at lines 27-38, which compares with `===`,
behaves as the claim says on the same input. -/
theorem fetchRun_converts_500_to_runNotFound :
    fetchRun "r1" (.error 500) =
      .error (.runNotFound "Run with id \"r1\" not found") ∧
    fetchRunInNamespace "r1" "ns" (.error 500) = .error (.other 500) ∧
    fetchRunInNamespace "r1" "ns" (.error 404) =
      .error (.runNotFound "Run with id \"r1\" not found in namespace \"ns\"") := by
  refine ⟨rfl, ?_, ?_⟩ <;> simp [fetchRunInNamespace]

/-! ## C10 -/

/-- C10: for every failed POST to `api/login` whose status is not 401,
`loginPost` resolves successfully with `undefined` (its catch handler
rethrows only for 401 and otherwise returns nothing), so `login`
proceeds to read `res.api_key` from an undefined result (a TypeError);
only a 401 response produces a rejected promise from `loginPost`. -/
theorem loginPost_swallows_non_401 (s : Nat) (h : s ≠ 401) :
    loginPost (.error s) = .ok none ∧
    login (.error s) = .error .typeErrorUndefined ∧
    (∀ resp e, loginPost resp = .error e → resp = .error 401) := by
  refine ⟨by simp [loginPost, h], by simp [login, loginPost, h], ?_⟩
  intro resp e hl
  cases resp with
  | ok key => simp [loginPost] at hl
  | error t =>
      by_cases ht : t = 401
      · simp [ht]
      · simp [loginPost, ht] at hl

/-- Witness for C10 at the concrete status 500. -/
theorem loginPost_swallows_non_401_witness :
    (500 : Nat) ≠ 401 ∧
    (loginPost (.error 500) = .ok none ∧
     login (.error 500) = .error .typeErrorUndefined ∧
     (∀ resp e, loginPost resp = .error e → resp = .error 401)) :=
  ⟨by decide, loginPost_swallows_non_401 500 (by decide)⟩

/-! ## Storage lemmas -/

theorem fingerprint_savePart_map (l : List StoredRun) (sr : StoredRun)
    (h : l.any (fun e => e.fingerprint = sr.fingerprint)) :
    (savePart l sr).map StoredRun.fingerprint = l.map StoredRun.fingerprint := by
  unfold savePart
  rw [if_pos h, List.map_map]
  refine List.map_congr_left ?_
  intro e _
  by_cases he : e.fingerprint = sr.fingerprint
  · simp [Function.comp, he]
  · simp [Function.comp, he]

theorem nodupFP_savePart {l : List StoredRun} {sr : StoredRun} (h : NodupFP l) :
    NodupFP (savePart l sr) := by
  by_cases hp : l.any (fun e => e.fingerprint = sr.fingerprint)
  · unfold NodupFP
    rw [fingerprint_savePart_map l sr hp]
    exact h
  · unfold NodupFP savePart
    rw [if_neg hp, List.map_append]
    have hnot : sr.fingerprint ∉ l.map StoredRun.fingerprint := by
      intro hmem
      rcases List.mem_map.mp hmem with ⟨e, he, hfe⟩
      exact hp (List.any_eq_true.mpr ⟨e, he, by simp [hfe]⟩)
    simp only [List.map_cons, List.map_nil]
    rw [List.nodup_append]
    exact ⟨h, List.nodup_singleton _, by
      intro a ha hb
      simp at hb
      subst hb
      exact hnot ha⟩

theorem nodupFP_filter {l : List StoredRun} (p : StoredRun → Bool) (h : NodupFP l) :
    NodupFP (l.filter p) := by
  unfold NodupFP at h ⊢
  exact h.sublist (List.Sublist.map _ (List.filter_sublist l))

def StoreInv (st : Store) : Prop :=
  NodupFP st.pending_failure ∧ NodupFP st.success

theorem storeInv_save {st : Store} (h : StoreInv st) (sr : StoredRun) (p : PartitionId) :
    StoreInv (RunStore.save st sr p) := by
  cases p with
  | pending_failure => exact ⟨nodupFP_savePart h.1, h.2⟩
  | success => exact ⟨h.1, nodupFP_savePart h.2⟩

theorem storeInv_delete {st : Store} (h : StoreInv st) (fp : Nat) (p : PartitionId) :
    StoreInv (RunStore.delete st fp p) := by
  cases p with
  | pending_failure => exact ⟨nodupFP_filter _ h.1, h.2⟩
  | success => exact ⟨h.1, nodupFP_filter _ h.2⟩

theorem storeInv_applyOp {st : Store} (h : StoreInv st) (op : StoreOp) :
    StoreInv (applyOp st op) := by
  cases op with
  | save sr p => exact storeInv_save h sr p
  | del fp p => exact storeInv_delete h fp p
  | move fp src dst =>
      show StoreInv (RunStore.move st fp src dst)
      unfold RunStore.move
      cases lookupFP (st.part src) fp with
      | none => exact h
      | some e => exact storeInv_save (storeInv_delete h fp src) e dst

theorem storeInv_foldl (ops : List StoreOp) :
    ∀ st : Store, StoreInv st → StoreInv (ops.foldl applyOp st) := by
  induction ops with
  | nil => intro st h; exact h
  | cons op rest ih =>
      intro st h
      exact ih (applyOp st op) (storeInv_applyOp h op)

theorem storeInv_reachable {st : Store} (h : Reachable st) : StoreInv st := by
  rcases h with ⟨ops, hops⟩
  subst hops
  exact storeInv_foldl ops emptyStore ⟨List.nodup_nil, List.nodup_nil⟩

theorem entriesFP_eq_nil {l : List StoredRun} {fp : Nat}
    (h : ∀ e ∈ l, e.fingerprint ≠ fp) : entriesFP l fp = [] := by
  unfold entriesFP
  rw [List.filter_eq_nil_iff]
  intro e he
  simp [h e he]

theorem entriesFP_length_le_one {l : List StoredRun} {fp : Nat} (h : NodupFP l) :
    (entriesFP l fp).length ≤ 1 := by
  induction l with
  | nil => simp [entriesFP]
  | cons e rest ih =>
      unfold NodupFP at h
      rw [List.map_cons, List.nodup_cons] at h
      by_cases he : e.fingerprint = fp
      · have hrest : ∀ x ∈ rest, x.fingerprint ≠ fp := by
          intro x hx hxe
          exact h.1 (he ▸ hxe ▸ List.mem_map_of_mem StoredRun.fingerprint hx)
        rw [show entriesFP (e :: rest) fp = e :: entriesFP rest fp by
          simp [entriesFP, List.filter_cons, he]]
        rw [entriesFP_eq_nil hrest]
        simp
      · rw [show entriesFP (e :: rest) fp = entriesFP rest fp by
          simp [entriesFP, List.filter_cons, he]]
        exact ih h.2

theorem savePart_length_of_present (l : List StoredRun) (sr : StoredRun)
    (h : l.any (fun e => e.fingerprint = sr.fingerprint)) :
    (savePart l sr).length = l.length := by
  unfold savePart
  rw [if_pos h, List.length_map]

theorem lookupFP_savePart (l : List StoredRun) (sr : StoredRun)
    (h : l.any (fun e => e.fingerprint = sr.fingerprint)) :
    lookupFP (savePart l sr) sr.fingerprint = some sr := by
  unfold savePart lookupFP
  rw [if_pos h]
  induction l with
  | nil => simp at h
  | cons e rest ih =>
      by_cases he : e.fingerprint = sr.fingerprint
      · simp [List.find?_cons, he]
      · rw [List.any_cons] at h
        have hrest : rest.any (fun e => e.fingerprint = sr.fingerprint) := by
          rcases Bool.or_eq_true_iff.mp h with h1 | h2
          · exact absurd (of_decide_eq_true h1) he
          · exact h2
        simp only [List.map_cons, List.find?_cons, if_neg he, decide_eq_false he]
        exact ih hrest

theorem part_save (st : Store) (sr : StoredRun) (p : PartitionId) :
    (RunStore.save st sr p).part p = savePart (st.part p) sr := by
  cases p <;> rfl

theorem nodupFP_part {st : Store} (h : StoreInv st) (p : PartitionId) :
    NodupFP (st.part p) := by
  cases p with
  | pending_failure => exact h.1
  | success => exact h.2

/-! ## C2 -/

/-- C2: in every reachable storage state, at most one StoredRun entry
per fingerprint exists in each partition, and `RunStore.save` of a run
whose fingerprint already has an entry in that partition overwrites the
existing entry (the stored entry under that fingerprint becomes the new
run with its bookkeeping) and never creates a second one (the partition
size is unchanged), so uploading the same run content twice leaves at
most one entry per partition. -/
theorem runstore_at_most_one_entry_per_fingerprint (st : Store) (h : Reachable st) :
    (∀ p fp, (entriesFP (st.part p) fp).length ≤ 1) ∧
    (∀ sr p, (st.part p).any (fun e => e.fingerprint = sr.fingerprint) →
      ((RunStore.save st sr p).part p).length = (st.part p).length ∧
      lookupFP ((RunStore.save st sr p).part p) sr.fingerprint = some sr) ∧
    (∀ sr p, Reachable (RunStore.save st sr p)) := by
  have hinv := storeInv_reachable h
  refine ⟨?_, ?_, ?_⟩
  · intro p fp
    exact entriesFP_length_le_one (nodupFP_part hinv p)
  · intro sr p hp
    rw [part_save]
    exact ⟨savePart_length_of_present _ _ hp, lookupFP_savePart _ _ hp⟩
  · intro sr p
    rcases h with ⟨ops, hops⟩
    refine ⟨ops ++ [.save sr p], ?_⟩
    unfold runOps at hops ⊢
    rw [List.foldl_append, hops]
    rfl

/-- Witness for C2 at a concrete reachable store holding one entry. -/
theorem runstore_at_most_one_entry_per_fingerprint_witness :
    Reachable (runOps [.save (mkStored sampleRun 5) .pending_failure]) ∧
    (∀ p fp,
      (entriesFP ((runOps [.save (mkStored sampleRun 5) .pending_failure]).part p) fp).length ≤ 1) :=
  ⟨⟨_, rfl⟩,
   (runstore_at_most_one_entry_per_fingerprint
      (runOps [.save (mkStored sampleRun 5) .pending_failure]) ⟨_, rfl⟩).1⟩

/-! ## Upload loop lemmas -/

theorem uploadLoop_length_le (cfg : RetryConfig) (jitter : Nat → Nat)
    (transport : Nat → Outcome) :
    ∀ fuel n, (uploadLoop cfg jitter transport fuel n).2.1.length ≤ fuel := by
  intro fuel
  induction fuel with
  | zero => intro n; simp [uploadLoop]
  | succ f ih =>
      intro n
      unfold uploadLoop
      cases transport n with
      | Delivered => simp
      | RejectedPermanent r => simp
      | RejectedTransient r =>
          cases hr : should_retry cfg n (.RejectedTransient r) with
          | true =>
              simp only [hr, if_true, List.length_cons]
              exact Nat.succ_le_succ (ih (n + 1))
          | false => simp [hr]

theorem uploadLoop_length_pos (cfg : RetryConfig) (jitter : Nat → Nat)
    (transport : Nat → Outcome) (fuel n : Nat) (h : 1 ≤ fuel) :
    1 ≤ (uploadLoop cfg jitter transport fuel n).2.1.length := by
  cases fuel with
  | zero => omega
  | succ f =>
      unfold uploadLoop
      cases transport n with
      | Delivered => simp
      | RejectedPermanent r => simp
      | RejectedTransient r =>
          cases hr : should_retry cfg n (.RejectedTransient r) with
          | true => simp [hr]
          | false => simp [hr]

theorem uploadLoop_delivered_mem (cfg : RetryConfig) (jitter : Nat → Nat)
    (transport : Nat → Outcome) :
    ∀ fuel n, (uploadLoop cfg jitter transport fuel n).1 = .delivered →
      Outcome.Delivered ∈ (uploadLoop cfg jitter transport fuel n).2.1 := by
  intro fuel
  induction fuel with
  | zero => intro n h; simp [uploadLoop] at h
  | succ f ih =>
      intro n h
      unfold uploadLoop at h ⊢
      cases ht : transport n with
      | Delivered => simp [ht]
      | RejectedPermanent r => simp [ht] at h
      | RejectedTransient r =>
          simp only [ht] at h ⊢
          cases hr : should_retry cfg n (.RejectedTransient r) with
          | true =>
              simp only [hr, if_true] at h ⊢
              exact List.mem_cons_of_mem _ (ih (n + 1) h)
          | false => simp [hr] at h

theorem uploadLoop_permanent_trace (cfg : RetryConfig) (jitter : Nat → Nat)
    (transport : Nat → Outcome) (reason : String) :
    ∀ fuel n, (uploadLoop cfg jitter transport fuel n).1 = .rejectedPermanent reason →
      ∃ pre, (uploadLoop cfg jitter transport fuel n).2.1 =
          pre ++ [Outcome.RejectedPermanent reason] ∧
        ∀ o ∈ pre, ∃ s, o = Outcome.RejectedTransient s := by
  intro fuel
  induction fuel with
  | zero => intro n h; simp [uploadLoop] at h
  | succ f ih =>
      intro n h
      unfold uploadLoop at h ⊢
      cases ht : transport n with
      | Delivered => simp [ht] at h
      | RejectedPermanent r =>
          simp only [ht] at h ⊢
          have : r = reason := by
            simpa using h
          subst this
          exact ⟨[], by simp⟩
      | RejectedTransient r =>
          simp only [ht] at h ⊢
          cases hr : should_retry cfg n (.RejectedTransient r) with
          | true =>
              simp only [hr, if_true] at h ⊢
              rcases ih (n + 1) h with ⟨pre, hpre, hall⟩
              refine ⟨Outcome.RejectedTransient r :: pre, by simp [hpre], ?_⟩
              intro o ho
              rcases List.mem_cons.mp ho with h1 | h2
              · exact ⟨r, h1⟩
              · exact hall o h2
          | false => simp [hr] at h

theorem uploadLoop_delays (cfg : RetryConfig) (jitter : Nat → Nat)
    (transport : Nat → Outcome) :
    ∀ fuel n, (uploadLoop cfg jitter transport fuel n).2.2 =
      (List.range (uploadLoop cfg jitter transport fuel n).2.2.length).map
        (fun i => next_delay cfg jitter (n + i)) := by
  intro fuel
  induction fuel with
  | zero => intro n; simp [uploadLoop]
  | succ f ih =>
      intro n
      unfold uploadLoop
      cases ht : transport n with
      | Delivered => simp
      | RejectedPermanent r => simp
      | RejectedTransient r =>
          cases hr : should_retry cfg n (.RejectedTransient r) with
          | true =>
              simp only [hr, if_true, List.length_cons]
              rw [List.range_succ_eq_map, List.map_cons, List.map_map]
              congr 1
              rw [ih (n + 1)]
              simp only [List.length_map, List.length_range]
              refine List.map_congr_left ?_
              intro i _
              simp only [Function.comp]
              congr 1
              omega
          | false => simp [hr, uploadLoop]

theorem self_mem_savePart (l : List StoredRun) (sr : StoredRun) : sr ∈ savePart l sr := by
  unfold savePart
  by_cases hp : l.any (fun e => e.fingerprint = sr.fingerprint)
  · rw [if_pos hp]
    rcases List.any_eq_true.mp hp with ⟨x, hx, hfx⟩
    exact List.mem_map.mpr ⟨x, hx, by simp [of_decide_eq_true hfx]⟩
  · rw [if_neg hp]
    simp

theorem mem_savePart_fp_eq (l : List StoredRun) (sr : StoredRun) :
    ∀ e ∈ savePart l sr, e.fingerprint = sr.fingerprint → e = sr := by
  unfold savePart
  by_cases hp : l.any (fun e => e.fingerprint = sr.fingerprint)
  · rw [if_pos hp]
    intro e he hfe
    rcases List.mem_map.mp he with ⟨x, _, hxe⟩
    by_cases hx : x.fingerprint = sr.fingerprint
    · rw [if_pos hx] at hxe
      exact hxe.symm
    · rw [if_neg hx] at hxe
      exact absurd (hxe ▸ hfe) hx
  · rw [if_neg hp]
    intro e he hfe
    rcases List.mem_append.mp he with h1 | h2
    · exact absurd (List.any_eq_true.mpr ⟨e, h1, by simp [hfe]⟩) hp
    · simpa using h2

/-! ## C1 -/

/-- C1: for every run and every sequence of transport outcomes, one
`upload` call terminates in a state where either delivery was confirmed
(terminal result `delivered`, with a `Delivered` outcome observed in the
attempt trace) or the run has been durably recorded in the
`pending_failure` partition; no exit path discards the run without one
of these two effects. -/
theorem upload_never_loses_run (cfg : RetryConfig) (jitter : Nat → Nat)
    (transport : Nat → Outcome) (ps : UploadParams) (run : Run) (fp : Nat) (st : Store) :
    ((upload cfg jitter transport ps run fp st).2.1 = .delivered ∧
      Outcome.Delivered ∈ (upload cfg jitter transport ps run fp st).2.2.1) ∨
    ∃ e ∈ (upload cfg jitter transport ps run fp st).1.pending_failure,
      e.fingerprint = fp ∧ e.run = run := by
  rcases hl : (uploadLoop cfg jitter transport cfg.max_attempts 1).1 with _ | reason | reason
  · left
    exact ⟨hl, uploadLoop_delivered_mem cfg jitter transport cfg.max_attempts 1 hl⟩
  · right
    show ∃ e ∈ (settleOutcome run fp ps
        (if ps.save then RunStore.save st (mkStored run fp) .pending_failure else st)
        (uploadLoop cfg jitter transport cfg.max_attempts 1).1
        (uploadLoop cfg jitter transport cfg.max_attempts 1).2.1.length).pending_failure,
      e.fingerprint = fp ∧ e.run = run
    rw [hl]
    refine ⟨_, self_mem_savePart _ _, rfl, rfl⟩
  · right
    show ∃ e ∈ (settleOutcome run fp ps
        (if ps.save then RunStore.save st (mkStored run fp) .pending_failure else st)
        (uploadLoop cfg jitter transport cfg.max_attempts 1).1
        (uploadLoop cfg jitter transport cfg.max_attempts 1).2.1.length).pending_failure,
      e.fingerprint = fp ∧ e.run = run
    rw [hl]
    refine ⟨_, self_mem_savePart _ _, rfl, rfl⟩

/-! ## C3 -/

/-- C3 counterexample: with `base = 1`, `max_delay = 1`, three max
attempts, a jitter draw of 1 on the first attempt (within `[0, delay]`)
and 0 afterwards, and an always-transient transport, the slept delays
are `[2, 1]` — the sequence of delays between successive attempts
strictly decreases, so the claim's monotonicity part is false. -/
theorem retry_jittered_delays_can_decrease :
    (∀ n, cexJitter n ≤ backoff cexCfg n) ∧
    (upload cexCfg cexJitter alwaysTransient ⟨false, true⟩ sampleRun 42 emptyStore).2.2.2
      = [2, 1] ∧
    ¬ List.Chain' (· ≤ ·)
        (upload cexCfg cexJitter alwaysTransient ⟨false, true⟩ sampleRun 42 emptyStore).2.2.2 := by
  refine ⟨?_, by decide, ?_⟩
  · intro n
    by_cases h : n = 1
    · subst h; decide
    · simp [cexJitter, h]
  · intro hch
    rw [show (upload cexCfg cexJitter alwaysTransient ⟨false, true⟩ sampleRun 42
        emptyStore).2.2.2 = [2, 1] from by decide] at hch
    rw [List.chain'_cons] at hch
    omega

/-- C3 (amended): one orchestrated call invokes the transport at most
`max_attempts` times (`should_retry` is false from the configured
maximum on), and the delay before attempt k+1 equals
`min(base * 2^(k-1), max_delay)` plus the jitter draw for attempt k
(drawn from `[0, delay]`); the pre-jitter backoff components form a
non-decreasing sequence capped at `max_delay` (the jittered delays
themselves may decrease once the cap binds). -/
theorem retry_bound_and_backoff (cfg : RetryConfig) (jitter : Nat → Nat)
    (transport : Nat → Outcome) (ps : UploadParams) (run : Run) (fp : Nat) (st : Store)
    (hj : ∀ n, jitter n ≤ backoff cfg n) :
    (upload cfg jitter transport ps run fp st).2.2.1.length ≤ cfg.max_attempts ∧
    (∀ n o, cfg.max_attempts ≤ n → should_retry cfg n o = false) ∧
    (∀ n, next_delay cfg jitter n = min (cfg.base * 2 ^ (n - 1)) cfg.max_delay + jitter n) ∧
    (upload cfg jitter transport ps run fp st).2.2.2 =
      (List.range (upload cfg jitter transport ps run fp st).2.2.2.length).map
        (fun i => next_delay cfg jitter (i + 1)) ∧
    (∀ k, backoff cfg k ≤ backoff cfg (k + 1)) ∧
    (∀ k, backoff cfg k ≤ cfg.max_delay) := by
  refine ⟨?_, ?_, ?_, ?_, ?_, ?_⟩
  · exact uploadLoop_length_le cfg jitter transport cfg.max_attempts 1
  · intro n o h
    cases o with
    | Delivered => rfl
    | RejectedPermanent r => rfl
    | RejectedTransient r =>
        unfold should_retry
        simp
        omega
  · intro n
    rfl
  · show (uploadLoop cfg jitter transport cfg.max_attempts 1).2.2 =
      (List.range (uploadLoop cfg jitter transport cfg.max_attempts 1).2.2.length).map
        (fun i => next_delay cfg jitter (i + 1))
    rw [uploadLoop_delays cfg jitter transport cfg.max_attempts 1]
    simp only [List.length_map, List.length_range]
    refine List.map_congr_left ?_
    intro i _
    congr 1
    omega
  · intro k
    unfold backoff
    refine min_le_min ?_ le_rfl
    refine Nat.mul_le_mul_left _ ?_
    exact Nat.pow_le_pow_right (by omega) (by omega)
  · intro k
    exact Nat.min_le_right _ _

/-- Witness for C3 (amended) at a concrete configuration with zero
jitter and an always-transient transport. -/
theorem retry_bound_and_backoff_witness :
    (∀ n, (fun _ => 0) n ≤ backoff witCfg n) ∧
    ((upload witCfg (fun _ => 0) alwaysTransient ⟨false, true⟩ sampleRun 42 emptyStore).2.2.1.length
        ≤ witCfg.max_attempts ∧
     (∀ n o, witCfg.max_attempts ≤ n → should_retry witCfg n o = false) ∧
     (∀ n, next_delay witCfg (fun _ => 0) n =
        min (witCfg.base * 2 ^ (n - 1)) witCfg.max_delay + (fun _ => 0) n) ∧
     (upload witCfg (fun _ => 0) alwaysTransient ⟨false, true⟩ sampleRun 42 emptyStore).2.2.2 =
       (List.range
         (upload witCfg (fun _ => 0) alwaysTransient ⟨false, true⟩ sampleRun 42 emptyStore).2.2.2.length).map
         (fun i => next_delay witCfg (fun _ => 0) (i + 1)) ∧
     (∀ k, backoff witCfg k ≤ backoff witCfg (k + 1)) ∧
     (∀ k, backoff witCfg k ≤ witCfg.max_delay)) :=
  ⟨fun _ => Nat.zero_le _,
   retry_bound_and_backoff witCfg (fun _ => 0) alwaysTransient ⟨false, true⟩ sampleRun 42
     emptyStore (fun _ => Nat.zero_le _)⟩

/-! ## C4 -/

theorem entriesFP_deleteFilter (l : List StoredRun) (fp : Nat) :
    entriesFP (l.filter (fun e => e.fingerprint ≠ fp)) fp = [] := by
  refine entriesFP_eq_nil ?_
  intro e he
  exact of_decide_eq_true (List.mem_filter.mp he).2

theorem entriesFP_savePart_length (l : List StoredRun) (sr : StoredRun) (h : NodupFP l) :
    (entriesFP (savePart l sr) sr.fingerprint).length = 1 := by
  by_cases hp : l.any (fun e => e.fingerprint = sr.fingerprint)
  · unfold savePart
    rw [if_pos hp]
    unfold entriesFP
    rw [List.filter_map]
    have hfun : ((fun e => decide (e.fingerprint = sr.fingerprint)) ∘
        (fun e => if e.fingerprint = sr.fingerprint then sr else e)) =
        (fun e => decide (e.fingerprint = sr.fingerprint)) := by
      funext e
      by_cases he : e.fingerprint = sr.fingerprint <;> simp [Function.comp, he]
    rw [hfun, List.length_map]
    have hle : (entriesFP l sr.fingerprint).length ≤ 1 := entriesFP_length_le_one h
    have hpos : 0 < (entriesFP l sr.fingerprint).length := by
      rcases List.any_eq_true.mp hp with ⟨x, hx, hfx⟩
      have : x ∈ entriesFP l sr.fingerprint := List.mem_filter.mpr ⟨hx, hfx⟩
      exact List.length_pos.mpr (fun hnil => by simp [hnil] at this)
    unfold entriesFP at hle hpos
    omega
  · unfold savePart
    rw [if_neg hp]
    unfold entriesFP
    rw [List.filter_append]
    have h1 : l.filter (fun e => decide (e.fingerprint = sr.fingerprint)) = [] := by
      rw [List.filter_eq_nil_iff]
      intro e he hde
      exact hp (List.any_eq_true.mpr ⟨e, he, hde⟩)
    simp [h1]

/-- C4: for every run whose upload terminates with a `Delivered`
outcome: if `keep=false`, afterwards no entry for the run's fingerprint
exists in either partition (any pre-existing entry having been
deleted); if `keep=true` with `save` requested, afterwards exactly one
entry for that fingerprint exists, in the `success` partition — a
previously stored `pending_failure` entry is moved there, not
duplicated. -/
theorem delivered_keep_semantics (cfg : RetryConfig) (jitter : Nat → Nat)
    (transport : Nat → Outcome) (ps : UploadParams) (run : Run) (fp : Nat) (st : Store)
    (hns : NodupFP st.success)
    (hres : (upload cfg jitter transport ps run fp st).2.1 = .delivered) :
    (ps.keep = false →
      entriesFP (upload cfg jitter transport ps run fp st).1.pending_failure fp = [] ∧
      entriesFP (upload cfg jitter transport ps run fp st).1.success fp = []) ∧
    (ps.keep = true → ps.save = true →
      entriesFP (upload cfg jitter transport ps run fp st).1.pending_failure fp = [] ∧
      (entriesFP (upload cfg jitter transport ps run fp st).1.success fp).length = 1) := by
  have hres' : (uploadLoop cfg jitter transport cfg.max_attempts 1).1 = .delivered := hres
  constructor
  · intro hk
    have hstore : (upload cfg jitter transport ps run fp st).1 =
        RunStore.delete (RunStore.delete
          (if ps.save then RunStore.save st (mkStored run fp) .pending_failure else st)
          fp .pending_failure) fp .success := by
      show settleOutcome run fp ps
          (if ps.save then RunStore.save st (mkStored run fp) .pending_failure else st)
          (uploadLoop cfg jitter transport cfg.max_attempts 1).1
          (uploadLoop cfg jitter transport cfg.max_attempts 1).2.1.length = _
      rw [hres']
      unfold settleOutcome
      rw [hk]
      simp
    rw [hstore]
    constructor
    · simp only [RunStore.delete, Store.setPart, Store.part]
      exact entriesFP_deleteFilter _ fp
    · simp only [RunStore.delete, Store.setPart, Store.part]
      exact entriesFP_deleteFilter _ fp
  · intro hk hs
    have hstore : (upload cfg jitter transport ps run fp st).1 =
        RunStore.save (RunStore.delete
          (RunStore.save st (mkStored run fp) .pending_failure) fp .pending_failure)
          { mkStored run fp with
              attempt_count := (uploadLoop cfg jitter transport cfg.max_attempts 1).2.1.length }
          .success := by
      show settleOutcome run fp ps
          (if ps.save then RunStore.save st (mkStored run fp) .pending_failure else st)
          (uploadLoop cfg jitter transport cfg.max_attempts 1).1
          (uploadLoop cfg jitter transport cfg.max_attempts 1).2.1.length = _
      rw [hres']
      unfold settleOutcome
      rw [hk, hs]
      simp
    rw [hstore]
    constructor
    · simp only [RunStore.save, RunStore.delete, Store.setPart, Store.part]
      exact entriesFP_deleteFilter _ fp
    · simp only [RunStore.save, RunStore.delete, Store.setPart, Store.part]
      exact entriesFP_savePart_length st.success
        { mkStored run fp with
            attempt_count := (uploadLoop cfg jitter transport cfg.max_attempts 1).2.1.length }
        hns

/-- Witness for C4: an empty store, immediate delivery, `keep=true` and
`save=true` leave exactly one `success` entry and none in
`pending_failure`. -/
theorem delivered_keep_semantics_witness :
    NodupFP (emptyStore.success) ∧
    (upload witCfg (fun _ => 0) immediateDelivery ⟨true, true⟩ sampleRun 42
        emptyStore).2.1 = .delivered ∧
    ((⟨true, true⟩ : UploadParams).keep = true → (⟨true, true⟩ : UploadParams).save = true →
      entriesFP (upload witCfg (fun _ => 0) immediateDelivery ⟨true, true⟩ sampleRun 42
        emptyStore).1.pending_failure 42 = [] ∧
      (entriesFP (upload witCfg (fun _ => 0) immediateDelivery ⟨true, true⟩ sampleRun 42
        emptyStore).1.success 42).length = 1) :=
  ⟨List.nodup_nil, by decide,
   (delivered_keep_semantics witCfg (fun _ => 0) immediateDelivery ⟨true, true⟩ sampleRun 42
      emptyStore List.nodup_nil (by decide)).2⟩

/-! ## C7 -/

/-- C7: when an attempt returns `RejectedPermanent`, the orchestrator
makes no further transport attempt in that invocation (the permanent
outcome is the last of the trace, all earlier outcomes being transient),
records the run in `pending_failure` with `last_error` set, and marks
the entry no-auto-retry, so the blind batch replay selection (operator
intervention excluded) contains no entry for that fingerprint. -/
theorem permanent_rejection_terminal_and_marked (cfg : RetryConfig) (jitter : Nat → Nat)
    (transport : Nat → Outcome) (ps : UploadParams) (run : Run) (fp : Nat) (st : Store)
    (reason : String)
    (hres : (upload cfg jitter transport ps run fp st).2.1 = .rejectedPermanent reason) :
    (∃ pre, (upload cfg jitter transport ps run fp st).2.2.1 =
        pre ++ [Outcome.RejectedPermanent reason] ∧
      ∀ o ∈ pre, ∃ s, o = Outcome.RejectedTransient s) ∧
    (∃ e ∈ (upload cfg jitter transport ps run fp st).1.pending_failure,
      e.fingerprint = fp ∧ e.last_error = some reason ∧ e.no_auto_retry = true) ∧
    (∀ e ∈ eligibleEntries (upload cfg jitter transport ps run fp st).1.pending_failure false,
      e.fingerprint ≠ fp) := by
  have hres' : (uploadLoop cfg jitter transport cfg.max_attempts 1).1 =
      .rejectedPermanent reason := hres
  refine ⟨?_, ?_, ?_⟩
  · exact uploadLoop_permanent_trace cfg jitter transport reason cfg.max_attempts 1 hres'
  · show ∃ e ∈ (settleOutcome run fp ps
        (if ps.save then RunStore.save st (mkStored run fp) .pending_failure else st)
        (uploadLoop cfg jitter transport cfg.max_attempts 1).1
        (uploadLoop cfg jitter transport cfg.max_attempts 1).2.1.length).pending_failure,
      e.fingerprint = fp ∧ e.last_error = some reason ∧ e.no_auto_retry = true
    rw [hres']
    exact ⟨_, self_mem_savePart _ _, rfl, rfl, rfl⟩
  · show ∀ e ∈ eligibleEntries (settleOutcome run fp ps
        (if ps.save then RunStore.save st (mkStored run fp) .pending_failure else st)
        (uploadLoop cfg jitter transport cfg.max_attempts 1).1
        (uploadLoop cfg jitter transport cfg.max_attempts 1).2.1.length).pending_failure false,
      e.fingerprint ≠ fp
    rw [hres']
    intro e he hfe
    have hm := List.mem_filter.mp he
    have heq : e = ⟨run, fp, (uploadLoop cfg jitter transport cfg.max_attempts 1).2.1.length,
        some reason, true⟩ :=
      mem_savePart_fp_eq _ _ e hm.1 hfe
    have : e.no_auto_retry = false := of_decide_eq_true hm.2
    rw [heq] at this
    simp at this

/-- Witness for C7: an always-permanent transport. -/
theorem permanent_rejection_terminal_and_marked_witness :
    (upload witCfg (fun _ => 0) alwaysPermanent ⟨false, true⟩ sampleRun 42
        emptyStore).2.1 = .rejectedPermanent "400" ∧
    ((∃ pre, (upload witCfg (fun _ => 0) alwaysPermanent ⟨false, true⟩ sampleRun 42
          emptyStore).2.2.1 = pre ++ [Outcome.RejectedPermanent "400"] ∧
        ∀ o ∈ pre, ∃ s, o = Outcome.RejectedTransient s) ∧
      (∃ e ∈ (upload witCfg (fun _ => 0) alwaysPermanent ⟨false, true⟩ sampleRun 42
          emptyStore).1.pending_failure,
        e.fingerprint = 42 ∧ e.last_error = some "400" ∧ e.no_auto_retry = true) ∧
      (∀ e ∈ eligibleEntries (upload witCfg (fun _ => 0) alwaysPermanent ⟨false, true⟩
          sampleRun 42 emptyStore).1.pending_failure false, e.fingerprint ≠ 42)) :=
  ⟨by decide,
   permanent_rejection_terminal_and_marked witCfg (fun _ => 0) alwaysPermanent ⟨false, true⟩
     sampleRun 42 emptyStore "400" (by decide)⟩

/-! ## C6 -/

theorem replayGo_records (cfg : RetryConfig) (jitter : Nat → Nat)
    (transports : Nat → Nat → Outcome) (ps : UploadParams) :
    ∀ (runs : List StoredRun) (i : Nat) (st : Store),
      (replayGo cfg jitter transports ps runs i st).2.length = runs.length ∧
      (replayGo cfg jitter transports ps runs i st).2.map ReplayRecord.fingerprint =
        runs.map StoredRun.fingerprint := by
  intro runs
  induction runs with
  | nil => intro i st; exact ⟨rfl, rfl⟩
  | cons e rest ih =>
      intro i st
      unfold replayGo
      constructor
      · simp [(ih (i + 1) _).1]
      · simp [(ih (i + 1) _).2]

theorem replayGo_attempts (cfg : RetryConfig) (jitter : Nat → Nat)
    (transports : Nat → Nat → Outcome) (ps : UploadParams) (hmax : 1 ≤ cfg.max_attempts) :
    ∀ (runs : List StoredRun) (i : Nat) (st : Store),
      ∀ rec ∈ (replayGo cfg jitter transports ps runs i st).2, 1 ≤ rec.attempts := by
  intro runs
  induction runs with
  | nil => intro i st rec h; simp [replayGo] at h
  | cons e rest ih =>
      intro i st rec h
      unfold replayGo at h
      rcases List.mem_cons.mp h with h1 | h2
      · rw [h1]
        exact uploadLoop_length_pos cfg jitter (transports i) cfg.max_attempts 1 hmax
      · exact ih (i + 1) _ rec h2

theorem summarize_cons (r : UploadResult) (rs : List UploadResult) :
    summarize (r :: rs) = addSummary (resultTag r) (summarize rs) := rfl

theorem summarize_total (rs : List UploadResult) :
    (summarize rs).delivered + (summarize rs).rejected_permanent + (summarize rs).still_failed
      = rs.length := by
  induction rs with
  | nil => rfl
  | cons r rest ih =>
      rw [summarize_cons, List.length_cons]
      cases r <;> simp only [resultTag, addSummary] <;> omega

/-- C6: for every batch processed by `replay`, a delivery failure on one
run never aborts the batch: a per-run record is produced for every
selected stored run, in order (so every other run is still attempted,
with at least one transport attempt each when at least one attempt is
configured), and the aggregate summary counts each run's result — its
three counters are exactly the tally of the per-run results and total to
the number of runs processed.  Storage in this model is infallible, so
nothing (in particular no delivery error) aborts the operation. -/
theorem batch_replay_isolation (cfg : RetryConfig) (jitter : Nat → Nat)
    (transports : Nat → Nat → Outcome) (ps : UploadParams) (p : PartitionId)
    (includeMarked : Bool) (st : Store) (hmax : 1 ≤ cfg.max_attempts) :
    (replay cfg jitter transports ps p includeMarked st).2.1.length =
      (eligibleEntries (st.part p) includeMarked).length ∧
    (replay cfg jitter transports ps p includeMarked st).2.1.map ReplayRecord.fingerprint =
      (eligibleEntries (st.part p) includeMarked).map StoredRun.fingerprint ∧
    (∀ rec ∈ (replay cfg jitter transports ps p includeMarked st).2.1, 1 ≤ rec.attempts) ∧
    (replay cfg jitter transports ps p includeMarked st).2.2 =
      summarize ((replay cfg jitter transports ps p includeMarked st).2.1.map
        ReplayRecord.result) ∧
    (replay cfg jitter transports ps p includeMarked st).2.2.delivered +
      (replay cfg jitter transports ps p includeMarked st).2.2.rejected_permanent +
      (replay cfg jitter transports ps p includeMarked st).2.2.still_failed =
      (replay cfg jitter transports ps p includeMarked st).2.1.length := by
  refine ⟨?_, ?_, ?_, rfl, ?_⟩
  · exact (replayGo_records cfg jitter transports ps _ 0 st).1
  · exact (replayGo_records cfg jitter transports ps _ 0 st).2
  · intro rec h
    exact replayGo_attempts cfg jitter transports ps hmax _ 0 st rec h
  · have h := summarize_total ((replayGo cfg jitter transports ps
        (eligibleEntries (st.part p) includeMarked) 0 st).2.map ReplayRecord.result)
    rw [List.length_map] at h
    exact h

/-- Witness for C6 at the spec's batch scenario: three stored failed
runs, the second deterministically rejected permanently, the others
delivered. -/
theorem batch_replay_isolation_witness :
    1 ≤ witCfg.max_attempts ∧
    ((replay witCfg (fun _ => 0) batchTransports ⟨false, true⟩ .pending_failure false
        threeStore).2.1.length =
      (eligibleEntries (threeStore.part .pending_failure) false).length ∧
    (replay witCfg (fun _ => 0) batchTransports ⟨false, true⟩ .pending_failure false
        threeStore).2.1.map ReplayRecord.fingerprint =
      (eligibleEntries (threeStore.part .pending_failure) false).map StoredRun.fingerprint ∧
    (∀ rec ∈ (replay witCfg (fun _ => 0) batchTransports ⟨false, true⟩ .pending_failure false
        threeStore).2.1, 1 ≤ rec.attempts) ∧
    (replay witCfg (fun _ => 0) batchTransports ⟨false, true⟩ .pending_failure false
        threeStore).2.2 =
      summarize ((replay witCfg (fun _ => 0) batchTransports ⟨false, true⟩ .pending_failure false
        threeStore).2.1.map ReplayRecord.result) ∧
    (replay witCfg (fun _ => 0) batchTransports ⟨false, true⟩ .pending_failure false
        threeStore).2.2.delivered +
      (replay witCfg (fun _ => 0) batchTransports ⟨false, true⟩ .pending_failure false
        threeStore).2.2.rejected_permanent +
      (replay witCfg (fun _ => 0) batchTransports ⟨false, true⟩ .pending_failure false
        threeStore).2.2.still_failed =
      (replay witCfg (fun _ => 0) batchTransports ⟨false, true⟩ .pending_failure false
        threeStore).2.1.length) :=
  ⟨by decide,
   batch_replay_isolation witCfg (fun _ => 0) batchTransports ⟨false, true⟩ .pending_failure
     false threeStore (by decide)⟩

/-! ## C8 -/

theorem getFile_eq_none (fs : Fs) (k : FName) (h : ∀ f ∈ fs, f.1 ≠ k) :
    getFile fs k = none := by
  induction fs with
  | nil => rfl
  | cons f rest ih =>
      unfold getFile
      rw [if_neg (h f (List.mem_cons_self f rest))]
      exact ih (fun g hg => h g (List.mem_cons_of_mem f hg))

theorem getFile_append (l1 l2 : Fs) (k : FName) :
    getFile (l1 ++ l2) k =
      match getFile l1 k with
      | some v => some v
      | none => getFile l2 k := by
  induction l1 with
  | nil => rfl
  | cons f rest ih =>
      simp only [List.cons_append, getFile, List.append_eq]
      by_cases hf : f.1 = k
      · rw [if_pos hf, if_pos hf]
      · rw [if_neg hf, if_neg hf, ih]

theorem getFile_filter (fs : Fs) (q : FName × String → Bool) (k : FName)
    (hq : ∀ f : FName × String, f.1 = k → q f = true) :
    getFile (fs.filter q) k = getFile fs k := by
  induction fs with
  | nil => rfl
  | cons f rest ih =>
      rw [List.filter_cons]
      by_cases hf : f.1 = k
      · rw [if_pos (hq f hf)]
        simp only [getFile]
        rw [if_pos hf, if_pos hf]
      · by_cases hqf : q f = true
        · rw [if_pos hqf]
          simp only [getFile]
          rw [if_neg hf, if_neg hf]
          exact ih
        · rw [if_neg hqf]
          simp only [getFile]
          rw [if_neg hf]
          exact ih

theorem getFile_setFile_self (fs : Fs) (k : FName) (c : String) :
    getFile (setFile fs k c) k = some c := by
  unfold setFile
  rw [getFile_append]
  have h1 : getFile (fs.filter (fun f => f.1 ≠ k)) k = none := by
    refine getFile_eq_none _ _ ?_
    intro f hf
    exact of_decide_eq_true (List.mem_filter.mp hf).2
  rw [h1]
  simp [getFile]

theorem getFile_setFile_ne (fs : Fs) (k n : FName) (c : String) (h : n ≠ k) :
    getFile (setFile fs n c) k = getFile fs k := by
  unfold setFile
  rw [getFile_append]
  have hfil : getFile (fs.filter (fun f => decide (f.1 ≠ n))) k = getFile fs k :=
    getFile_filter fs (fun f => decide (f.1 ≠ n)) k
      (fun f hf => decide_eq_true (fun he => h (he ▸ hf)))
  rw [hfil]
  cases hg : getFile fs k with
  | some v => rfl
  | none =>
      simp only [getFile]
      rw [if_neg h]

theorem getFile_visible (fs : Fs) (fp : Nat) :
    getFile (visible fs) (.final fp) = getFile fs (.final fp) := by
  refine getFile_filter fs _ _ ?_
  intro f hf
  rw [hf]

theorem countName_filter (fs : Fs) (q : FName × String → Bool) (k : FName)
    (hq : ∀ f : FName × String, f.1 = k → q f = true) :
    countName (fs.filter q) k = countName fs k := by
  unfold countName
  rw [List.filter_filter]
  congr 1
  refine List.filter_congr ?_
  intro f _
  by_cases hf : f.1 = k
  · simp [hf, hq f hf]
  · simp [hf]

theorem countName_visible (fs : Fs) (fp : Nat) :
    countName (visible fs) (.final fp) = countName fs (.final fp) := by
  refine countName_filter fs _ _ ?_
  intro f hf
  rw [hf]

theorem countName_le_one (fs : Fs) (k : FName) (h : (fs.map Prod.fst).Nodup) :
    countName fs k ≤ 1 := by
  induction fs with
  | nil => simp [countName]
  | cons f rest ih =>
      rw [List.map_cons, List.nodup_cons] at h
      unfold countName
      rw [List.filter_cons]
      by_cases hf : f.1 = k
      · rw [if_pos (by simp [hf])]
        have hnone : rest.filter (fun g => decide (g.1 = k)) = [] := by
          rw [List.filter_eq_nil_iff]
          intro g hg hgk
          exact h.1 (hf ▸ (of_decide_eq_true hgk) ▸ List.mem_map_of_mem Prod.fst hg)
        unfold countName at ih
        simp [hnone]
      · rw [if_neg (by simp [hf])]
        exact ih h.2

theorem countName_setFile_self (fs : Fs) (k : FName) (c : String) :
    countName (setFile fs k c) k = 1 := by
  unfold setFile countName
  rw [List.filter_append, List.filter_filter]
  have h1 : fs.filter (fun a => decide (a.1 = k) && decide (a.1 ≠ k)) = [] := by
    rw [List.filter_eq_nil_iff]
    intro g _ hg
    rcases Bool.and_eq_true_iff.mp hg with ⟨hg1, hg2⟩
    exact (of_decide_eq_true hg2) (of_decide_eq_true hg1)
  rw [h1]
  simp

theorem countName_setFile_ne (fs : Fs) (k n : FName) (c : String) (h : n ≠ k) :
    countName (setFile fs n c) k = countName fs k := by
  unfold setFile countName
  rw [List.filter_append, List.filter_filter]
  have h2 : [(n, c)].filter (fun f => decide (f.1 = k)) = [] := by
    simp [h]
  rw [h2, List.append_nil]
  congr 1
  refine List.filter_congr ?_
  intro f _
  by_cases hf : f.1 = k
  · have hkn : ¬k = n := fun he => h he.symm
    simp [hf, hkn]
  · simp [hf]

/-- C8: the write-to-temp-then-rename save discipline is atomic with
respect to process crash: whatever point of the operation sequence the
process is killed at (including mid-write, which may leave a torn prefix
in the temporary file), a subsequent process start observes at most one
entry for the fingerprint — either the previous complete entry (or no
entry) or the new complete entry, never a half-written one; and after a
completed save the entry is present exactly once with the new content. -/
theorem save_crash_atomic (fs0 : Fs) (fp : Nat) (content : String)
    (hn : (fs0.map Prod.fst).Nodup) :
    (∀ fs ∈ crashStates fs0 (saveFsOps fp content),
      countName (visible fs) (.final fp) ≤ 1 ∧
      (getFile (visible fs) (.final fp) = getFile fs0 (.final fp) ∨
        getFile (visible fs) (.final fp) = some content)) ∧
    getFile (applyFsOps fs0 (saveFsOps fp content)) (.final fp) = some content ∧
    countName (applyFsOps fs0 (saveFsOps fp content)) (.final fp) = 1 := by
  have htne : (FName.temp fp) ≠ (FName.final fp) := fun h => FName.noConfusion h
  have hget : getFile (setFile fs0 (.temp fp) content) (.temp fp) = some content :=
    getFile_setFile_self _ _ _
  have hfin : applyFs (setFile fs0 (.temp fp) content) (.rename (.temp fp) (.final fp)) =
      setFile (removeFile (setFile fs0 (.temp fp) content) (.temp fp)) (.final fp) content := by
    simp [applyFs, hget]
  have hProp0 : countName (visible fs0) (.final fp) ≤ 1 := by
    rw [countName_visible]
    exact countName_le_one fs0 _ hn
  have hPropTemp : ∀ c, countName (visible (setFile fs0 (.temp fp) c)) (.final fp) ≤ 1 ∧
      getFile (visible (setFile fs0 (.temp fp) c)) (.final fp) =
        getFile fs0 (.final fp) := by
    intro c
    constructor
    · rw [countName_visible, countName_setFile_ne _ _ _ _ htne]
      exact countName_le_one fs0 _ hn
    · rw [getFile_visible, getFile_setFile_ne _ _ _ _ htne]
  refine ⟨?_, ?_, ?_⟩
  · intro fs hfs
    simp only [saveFsOps, crashStates, tornStates, List.nil_append, List.append_nil] at hfs
    rcases List.mem_cons.mp hfs with h0 | hfs1
    · rw [h0]
      exact ⟨hProp0, Or.inl (getFile_visible fs0 fp)⟩
    · rcases List.mem_append.mp hfs1 with htorn | htail
      · rcases List.mem_map.mp htorn with ⟨j, _, hfs2⟩
        rw [← hfs2]
        exact ⟨(hPropTemp (content.take j)).1, Or.inl (hPropTemp (content.take j)).2⟩
      · rcases List.mem_cons.mp htail with h1 | hfs3
        · rw [h1]
          exact ⟨(hPropTemp content).1, Or.inl (hPropTemp content).2⟩
        · rcases List.mem_cons.mp hfs3 with h2 | h3
          · rw [h2]
            rw [show applyFs (applyFs fs0 (FsOp.write (.temp fp) content))
                  (FsOp.rename (.temp fp) (.final fp)) =
                setFile (removeFile (setFile fs0 (.temp fp) content) (.temp fp))
                  (.final fp) content from hfin]
            refine ⟨?_, Or.inr ?_⟩
            · rw [countName_visible, countName_setFile_self]
            · rw [getFile_visible, getFile_setFile_self]
          · exact absurd h3 (List.not_mem_nil fs)
  · show getFile (applyFs (applyFs fs0 (FsOp.write (.temp fp) content))
        (FsOp.rename (.temp fp) (.final fp))) (.final fp) = some content
    rw [show applyFs (applyFs fs0 (FsOp.write (.temp fp) content))
          (FsOp.rename (.temp fp) (.final fp)) =
        setFile (removeFile (setFile fs0 (.temp fp) content) (.temp fp))
          (.final fp) content from hfin]
    exact getFile_setFile_self _ _ _
  · show countName (applyFs (applyFs fs0 (FsOp.write (.temp fp) content))
        (FsOp.rename (.temp fp) (.final fp))) (.final fp) = 1
    rw [show applyFs (applyFs fs0 (FsOp.write (.temp fp) content))
          (FsOp.rename (.temp fp) (.final fp)) =
        setFile (removeFile (setFile fs0 (.temp fp) content) (.temp fp))
          (.final fp) content from hfin]
    exact countName_setFile_self _ _ _

/-- Witness for C8: a directory holding one previous complete entry for
fingerprint 7 being overwritten by a new save. -/
theorem save_crash_atomic_witness :
    (([((FName.final 7 : FName), "old")] : Fs).map Prod.fst).Nodup ∧
    ((∀ fs ∈ crashStates [((FName.final 7 : FName), "old")] (saveFsOps 7 "new"),
      countName (visible fs) (.final 7) ≤ 1 ∧
      (getFile (visible fs) (.final 7) =
          getFile [((FName.final 7 : FName), "old")] (.final 7) ∨
        getFile (visible fs) (.final 7) = some "new")) ∧
    getFile (applyFsOps [((FName.final 7 : FName), "old")] (saveFsOps 7 "new"))
      (.final 7) = some "new" ∧
    countName (applyFsOps [((FName.final 7 : FName), "old")] (saveFsOps 7 "new"))
      (.final 7) = 1) :=
  ⟨by decide, save_crash_atomic [((FName.final 7 : FName), "old")] 7 "new" (by decide)⟩

/-! ## C5 -/

theorem getStr_some (o : Option RawField) (v : String) (h : getStr o = some v) :
    o = some (.str v) := by
  match o with
  | none => simp [getStr] at h
  | some (.str s) =>
      simp [getStr] at h
      rw [h]
  | some (.segs l) => simp [getStr] at h

theorem parseSeg_lookups (s : RawSeg) (seg : Segment) (h : parseSeg s = some seg) :
    s.lookup "src" = some seg.src ∧ s.lookup "tgt" = some seg.tgt ∧
      s.lookup "ref" = seg.ref := by
  unfold parseSeg at h
  cases hsrc : s.lookup "src" with
  | none => rw [hsrc] at h; simp at h
  | some src =>
      cases htgt : s.lookup "tgt" with
      | none => rw [hsrc, htgt] at h; simp at h
      | some tgt =>
          rw [hsrc, htgt] at h
          injection h with h'
          subst h'
          exact ⟨rfl, rfl, rfl⟩

theorem canonSeg_parse (s : RawSeg) (seg : Segment) (h : parseSeg s = some seg) :
    canonSeg s = canonSegOf seg := by
  obtain ⟨hsrc, htgt, href⟩ := parseSeg_lookups s seg h
  cases hr : seg.ref with
  | some rv =>
      rw [hr] at href
      simp [canonSeg, segKeyOrder, canonSegOf, hsrc, htgt, href, hr]
  | none =>
      rw [hr] at href
      simp [canonSeg, segKeyOrder, canonSegOf, hsrc, htgt, href, hr]

theorem canonSegs_parse (raws : List RawSeg) (segs : List Segment)
    (h : parseSegs raws = some segs) :
    raws.map canonSeg = segs.map canonSegOf := by
  induction raws generalizing segs with
  | nil =>
      unfold parseSegs at h
      injection h with h'
      subst h'
      rfl
  | cons s rest ih =>
      unfold parseSegs at h
      cases hs : parseSeg s with
      | none => rw [hs] at h; simp at h
      | some a =>
          cases hrest : parseSegs rest with
          | none => rw [hs, hrest] at h; simp at h
          | some b =>
              rw [hs, hrest] at h
              injection h with h'
              subst h'
              simp only [List.map_cons]
              rw [canonSeg_parse s a hs, ih b hrest]

theorem parseRun_lookups (r : RawRun) (run : Run) (h : parseRun r = some run) :
    r.lookup "namespace_name" = some (.str run.namespace_name) ∧
    r.lookup "dataset_name" = some (.str run.dataset_name) ∧
    r.lookup "dataset_source_lang" = some (.str run.dataset_source_lang) ∧
    r.lookup "dataset_target_lang" = some (.str run.dataset_target_lang) ∧
    ∃ raws, r.lookup "segments" = some (.segs raws) ∧
      parseSegs raws = some run.segments := by
  unfold parseRun at h
  cases h1 : getStr (r.lookup "namespace_name") with
  | none => rw [h1] at h; simp at h
  | some ns =>
  cases h2 : getStr (r.lookup "dataset_name") with
  | none => rw [h1, h2] at h; simp at h
  | some ds =>
  cases h3 : getStr (r.lookup "dataset_source_lang") with
  | none => rw [h1, h2, h3] at h; simp at h
  | some sl =>
  cases h4 : getStr (r.lookup "dataset_target_lang") with
  | none => rw [h1, h2, h3, h4] at h; simp at h
  | some tl =>
  cases h5 : r.lookup "segments" with
  | none => rw [h1, h2, h3, h4, h5] at h; simp at h
  | some f =>
  cases f with
  | str v => rw [h1, h2, h3, h4, h5] at h; simp at h
  | segs raws =>
      rw [h1, h2, h3, h4, h5] at h
      rcases Option.map_eq_some'.mp h with ⟨segs, hsegs, hmk⟩
      subst hmk
      exact ⟨getStr_some _ _ h1, getStr_some _ _ h2, getStr_some _ _ h3,
        getStr_some _ _ h4, raws, rfl, hsegs⟩

theorem canonRun_parse (r : RawRun) (run : Run) (h : parseRun r = some run) :
    canonRun r = canonRunOf run := by
  obtain ⟨h1, h2, h3, h4, raws, h5, h6⟩ := parseRun_lookups r run h
  simp [canonRun, runKeyOrder, canonRunOf, canonField, h1, h2, h3, h4, h5,
    canonSegs_parse raws run.segments h6]

/-- C5: `fingerprint` is a pure, deterministic function of the run's
canonical content: any two serialized runs carrying the same semantic
content — parsing to the same `Run` (same `namespace_name`,
`dataset_name`, language codes and segment sequence), whatever the
serialization order of their fields — receive the same digest, because
field ordering is canonicalized before hashing. -/
theorem fingerprint_canonical (r1 r2 : RawRun) (run : Run)
    (h1 : parseRun r1 = some run) (h2 : parseRun r2 = some run) :
    fingerprint r1 = fingerprint r2 := by
  unfold fingerprint
  rw [canonRun_parse r1 run h1, canonRun_parse r2 run h2]

/-- Witness for C5: the spec's example run serialized in two different
field orders receives one digest. -/
theorem fingerprint_canonical_witness :
    parseRun rawPermA = some sampleRun ∧ parseRun rawPermB = some sampleRun ∧
    fingerprint rawPermA = fingerprint rawPermB :=
  ⟨by decide, by decide,
   fingerprint_canonical rawPermA rawPermB sampleRun (by decide) (by decide)⟩
